import Mathlib

/-!
Verification of the table-rendering engine of `scripts/render-table.py`.

The Python source is shallowly embedded: cell values are `List Char`,
fallible operations (Python exceptions) return `Option`, `decimal.Decimal`
values are represented exactly by a sign, a natural-number coefficient and
a decimal scale (faithful to the code on inputs whose coefficients fit in
the default 28-digit context precision; theorems that quantify over
numeric inputs carry an explicit digit-count bound for this reason).
-/

namespace RenderTable

/-! ## Basic character and string helpers -/

/-- Whitespace characters recognised by Python's `str.strip()` (ASCII part). -/
def isPyWS (c : Char) : Bool :=
  c = ' ' ∨ c = '\t' ∨ c = '\n' ∨ c = '\r' ∨ c = '\x0b' ∨ c = '\x0c'

/-- Python `str.strip()`: drop leading and trailing whitespace. -/
def stripWS (s : List Char) : List Char :=
  ((s.dropWhile isPyWS).reverse.dropWhile isPyWS).reverse

/-- Python `str.replace(old, new)` for a single-character `old`. -/
def replaceChar (c : Char) (new : List Char) (s : List Char) : List Char :=
  s.flatMap (fun x => if x = c then new else [x])

/-- Python `str.replace(old, new)` for a two-character `old = [a, b]`:
leftmost non-overlapping occurrences, replaced text is not rescanned. -/
def replace2 (a b : Char) (new : List Char) : List Char → List Char
  | [] => []
  | [x] => [x]
  | x :: y :: rest =>
    if x = a ∧ y = b then new ++ replace2 a b new rest
    else x :: replace2 a b new (y :: rest)

/-- Split a list at every occurrence of `c` (Python `str.split(c)`). -/
def splitOnC (c : Char) : List Char → List (List Char)
  | [] => [[]]
  | x :: xs =>
    if x = c then [] :: splitOnC c xs
    else
      match splitOnC c xs with
      | [] => [[x]]
      | h :: t => (x :: h) :: t

/-- Split at the first occurrence of `c`, if any. -/
def splitFirst (c : Char) : List Char → Option (List Char × List Char)
  | [] => none
  | x :: xs =>
    if x = c then some ([], xs)
    else (splitFirst c xs).map (fun p => (x :: p.1, p.2))

/-- Python `str.partition("-")`: text before the first dash, whether a dash
was found, and the text after it. -/
def partitionDash : List Char → List Char × Bool × List Char
  | [] => ([], false, [])
  | c :: rest =>
    if c = '-' then ([], true, rest)
    else
      let p := partitionDash rest
      (c :: p.1, p.2.1, p.2.2)

/-- Numeric value of a list of decimal digit characters. -/
def natOfDigits (s : List Char) : Nat :=
  s.foldl (fun a c => 10 * a + (c.toNat - 48)) 0

/-- Parse a nonempty all-digit string. -/
def parseNatDigits (s : List Char) : Option Nat :=
  if s = [] then none
  else if s.all Char.isDigit then some (natOfDigits s) else none

/-- Python `int(s)`: surrounding whitespace allowed, optional sign,
decimal digits; anything else raises (`none`). -/
def parseIntPy (s : List Char) : Option Int :=
  match stripWS s with
  | [] => none
  | c :: rest =>
    if c = '-' then (parseNatDigits rest).map (fun n => -(n : Int))
    else if c = '+' then (parseNatDigits rest).map (fun n => (n : Int))
    else (parseNatDigits (c :: rest)).map (fun n => (n : Int))

/-! ## `quote` (lines 139-153 of the source) -/

/-- `quote`: escape markup-special characters and double escaped
backslash pairs; empty input maps to the empty string.  The replacement
chain is applied in the source's order. -/
def escPart (s : List Char) : List Char :=
  replaceChar '\x7d' ['\\', '\x7d']
    (replaceChar '\x7b' ['\\', '\x7b']
      (replaceChar '_' ['\\', '_']
        (replaceChar '$' ['\\', '$']
          (replaceChar '&' ['\\', '&']
            (replaceChar '#' ['\\', '#']
              (replaceChar '%' ['\\', '%'] s))))))

def quoteChain (s : List Char) : List Char :=
  replace2 '\\' '\\' ['\\', '\\', '\\', '\\'] (escPart s)

def quote (text : List Char) : List Char :=
  if text = [] then [] else quoteChain (stripWS text)

/-- Python `stripnl`: newline to space. -/
def stripnl (s : List Char) : List Char :=
  s.map (fun c => if c = '\n' then ' ' else c)

/-! ## Span / Spans (lines 53-117 of the source) -/

/-- A half-open integer interval with optional (unbounded) ends.
`stop` models the Python attribute `end` (a reserved word in Lean). -/
structure Span where
  start : Option Int
  stop : Option Int
deriving DecidableEq, Repr

/-- `Span.parse` (lines 58-67): `assert s` on the empty string, partition
on the first dash, integer-parse the present pieces, and turn a lone
index `n` into `[n, n+1)`. -/
def spanParse (s : List Char) : Option Span :=
  if s = [] then none
  else
    let p := partitionDash s
    if p.1 = [] then
      if p.2.2 = [] then
        if p.2.1 then some (Span.mk none none) else none
      else (parseIntPy p.2.2).map (fun b => Span.mk none (some (b + 1)))
    else
      match parseIntPy p.1 with
      | none => none
      | some a =>
        if p.2.2 = [] then
          if p.2.1 then some (Span.mk (some a) none)
          else some (Span.mk (some a) (some (a + 1)))
        else (parseIntPy p.2.2).map (fun b => Span.mk (some a) (some (b + 1)))

/-- `Span.__contains__` (lines 69-76). -/
def spanMem (sp : Span) (i : Int) : Bool :=
  match sp.start, sp.stop with
  | none, none => true
  | none, some e => decide (i < e)
  | some s, none => decide (s ≤ i)
  | some s, some e => decide (s ≤ i) && decide (i < e)

/-- `Spans.__contains__`: membership in any member span. -/
def spansMem (l : List Span) (i : Int) : Bool :=
  l.any (fun sp => spanMem sp i)

/-- `Spans.parse` (lines 87-90): split on commas, drop empty pieces,
parse each piece. -/
def spansParse (v : List Char) : Option (List Span) :=
  go ((splitOnC ',' v).filter (fun s => !s.isEmpty))
where
  go : List (List Char) → Option (List Span)
    | [] => some []
    | s :: rest => (spanParse s).bind fun sp => (go rest).map fun l => sp :: l

/-- `Spans.all()`: the single unbounded span. -/
def spansAll : List Span := [Span.mk none none]

/-- `Spans.filter` (lines 98-101): enumerate the sequence and yield the
*value* of every position whose index is contained in the set. -/
def spansFilterAux (l : List Span) : Nat → List α → List α
  | _, [] => []
  | i, x :: xs =>
    if spansMem l (Int.ofNat i) then x :: spansFilterAux l (i + 1) xs
    else spansFilterAux l (i + 1) xs

def spansFilter (l : List Span) (xs : List α) : List α :=
  spansFilterAux l 0 xs

/-- The spec's description of `filter` ("a lazy sequence of
`(original_index, element)` pairs"), stated as a definition to compare
against the source's `spansFilter`. -/
def spansFilterSpecPairs (l : List Span) : Nat → List α → List (Nat × α)
  | _, [] => []
  | i, x :: xs =>
    if spansMem l (Int.ofNat i) then (i, x) :: spansFilterSpecPairs l (i + 1) xs
    else spansFilterSpecPairs l (i + 1) xs

/-! ## The numeric pattern of `RoundNumbers.apply` (line 338)

Python regex `re.match(r"^-?([0-9]+[,.]?)+$", value)`: optional minus,
then digits interleaved with single separators (never two adjacent
separators, never a leading separator, a trailing separator is allowed);
`$` also matches just before one final newline. -/

def numScan : Bool → List Char → Bool
  | _, [] => true
  | afterSep, c :: rest =>
    if c.isDigit then numScan false rest
    else if c = ',' ∨ c = '.' then !afterSep && numScan true rest
    else false

def numCore : List Char → Bool
  | [] => false
  | c :: rest => c.isDigit && numScan false rest

def numOpt : List Char → Bool
  | [] => false
  | c :: rest => if c = '-' then numCore rest else numCore (c :: rest)

def pyMatchNum (s : List Char) : Bool :=
  numOpt s ||
    (match s.getLast? with
     | some c => decide (c = '\n') && numOpt s.dropLast
     | none => false)

/-- The pattern of `Percent.apply` (line 366): `^-?[0-9,.]+$`. -/
def pctCore (s : List Char) : Bool :=
  !s.isEmpty && s.all (fun c => c.isDigit || c = ',' || c = '.')

def pctOpt : List Char → Bool
  | [] => false
  | c :: rest => if c = '-' then pctCore rest else pctCore (c :: rest)

def pyMatchPct (s : List Char) : Bool :=
  pctOpt s ||
    (match s.getLast? with
     | some c => decide (c = '\n') && pctOpt s.dropLast
     | none => false)

/-! ## Decimal values

`decimal.Decimal(s)` is modelled exactly as a sign, a natural-number
coefficient and a decimal scale. -/

/-- Python `Decimal(s)`: surrounding whitespace stripped, optional sign,
digits with at most one point, at least one digit; otherwise
`InvalidOperation` (`none`).  Returns (negative?, coefficient, scale). -/
def parseDec (s : List Char) : Option (Bool × Nat × Nat) :=
  let t := stripWS s
  let p : Bool × List Char :=
    match t with
    | [] => (false, [])
    | c :: rest =>
      if c = '-' then (true, rest)
      else if c = '+' then (false, rest) else (false, c :: rest)
  match splitOnC '.' p.2 with
  | [a] =>
    if a ≠ [] ∧ a.all Char.isDigit then some (p.1, natOfDigits a, 0) else none
  | [a, b] =>
    if (a ++ b) ≠ [] ∧ (a ++ b).all Char.isDigit then
      some (p.1, natOfDigits (a ++ b), b.length)
    else none
  | _ => none

/-- Division of naturals rounded half to even (`ROUND_HALF_EVEN`,
the default context rounding of `decimal`), applied to magnitudes. -/
def halfEvenDiv (n d : Nat) : Nat :=
  let q := n / d
  let r := n % d
  if 2 * r < d then q
  else if d < 2 * r then q + 1
  else if q % 2 = 0 then q else q + 1

/-- Left-pad a digit string with zeros to width `n`. -/
def padZeros (n : Nat) (s : List Char) : List Char :=
  List.replicate (n - s.length) '0' ++ s

/-- `str()` of a Decimal with sign `neg`, coefficient `c` and exponent
`-dn` (so `dn` fractional digits; `dn = 0` prints a plain integer).
A negative zero prints as `-0`, as in Python. -/
def decStr (neg : Bool) (c : Nat) (dn : Nat) : List Char :=
  (if neg then ['-'] else []) ++
    (if dn = 0 then (Nat.repr c).data
     else (Nat.repr (c / 10 ^ dn)).data ++ ('.' :: padZeros dn (Nat.repr (c % 10 ^ dn)).data))

/-- Lines 336-337: a parenthesized value `(x)` becomes `-x` before the
numeric test. -/
def parenRewrite (v : List Char) : List Char :=
  match v.head?, v.getLast? with
  | some h, some l =>
    if h = '(' ∧ l = ')' then '-' :: (v.drop 1).dropLast else v
  | _, _ => v

/-- `RoundNumbers.apply` (lines 335-353).  `down = true` models
`rounding=ROUND_DOWN`; note the negative-decimals branch quantizes with
the context default (half-even) regardless of `down`, dividing by
`10^-decimals` and rounding to an *integer* (the quotient is never
multiplied back). -/
def roundApply (decimals : Int) (down : Bool) (value : List Char) : Option (List Char) :=
  let v := parenRewrite value
  if pyMatchNum v then
    let cleaned := v.filter (fun c => decide (c ≠ ','))
    match parseDec cleaned with
    | none => none
    | some w =>
      let neg := w.1
      let c := w.2.1
      let scale := w.2.2
      if decimals < 0 then
        let k := (-decimals).toNat
        some (decStr neg (halfEvenDiv c (10 ^ (scale + k))) 0)
      else
        let dn := decimals.toNat
        let newC :=
          if scale ≤ dn then c * 10 ^ (dn - scale)
          else if down then c / 10 ^ (scale - dn)
          else halfEvenDiv c (10 ^ (scale - dn))
        some (decStr neg newC dn)
  else
    let v2 := if stripWS v = ("...").data then ("\\dots").data else v
    some (('\x7b' :: v2) ++ ['\x7d'])

/-- `Percent.apply` (lines 365-370): multiply by 100, quantize to
`decimals` fractional digits (half-even), wrap in the percent command;
non-matching values pass through. -/
def pctApply (decimals : Int) (v : List Char) : Option (List Char) :=
  if pyMatchPct v then
    let cleaned := v.filter (fun c => decide (c ≠ ','))
    match parseDec cleaned with
    | none => none
    | some w =>
      let dn := decimals.toNat
      let newC :=
        if w.2.2 ≤ dn + 2 then w.2.1 * 10 ^ (dn + 2 - w.2.2)
        else halfEvenDiv w.2.1 (10 ^ (w.2.2 - dn - 2))
      some ((("\\pct\x7b").data) ++ decStr w.1 newC dn ++ ['\x7d'])
  else some v

/-! ## Modifier kinds and the registry (lines 120-438) -/

/-- One variant per modifier class of the source.  `wrapperK` covers
`Wrapper` and, with `wrapValue = false` and a fixed directive, `Bold`
and `Italic`.  Arguments the Python code stores as possibly-`None`
strings are `Option (List Char)`; where the code interpolates such a
value into an f-string, `None` renders as the text `None`. -/
inductive Kind where
  | wrapperK (directive : Option (List Char)) (wrapValue : Bool)
  | bgK (color : Option (List Char))
  | fgK (color : Option (List Char))
  | roundK (decimals : Int) (down : Bool)
  | percentK (decimals : Int)
  | dotK
  | cmarkK (value : Option (List Char))
  | xmarkK (value : Option (List Char))
  | listK (value : Option (List Char))
  | rowBorder (borderTop : Bool) (cmd : List Char)
  | rowWrapperK
deriving DecidableEq, Repr

/-- Class-level `priority` attributes: `WrapperBase` defaults to 100;
`BackgroundColor` 10, `TextColor` 100, `RoundNumbers` and `Percent` 200,
`RowBorderWrapper` 0, `RowWrapper` 1. -/
def priority : Kind → Nat
  | .wrapperK _ _ => 100
  | .bgK _ => 10
  | .fgK _ => 100
  | .roundK _ _ => 200
  | .percentK _ => 200
  | .dotK => 100
  | .cmarkK _ => 100
  | .xmarkK _ => 100
  | .listK _ => 100
  | .rowBorder _ _ => 0
  | .rowWrapperK => 1

def optStr (o : Option (List Char)) : List Char :=
  o.getD (("None").data)

/-- `List.apply` (lines 303-307). -/
def listApply (v : List Char) : List Char :=
  if stripWS v = [] then []
  else
    let core := (v.dropWhile (fun c => c = '-' ∨ c = ' ')).reverse.dropWhile
      (fun c => c = '-' ∨ c = ' ') |>.reverse
    let parts := (String.splitOn (String.mk core) ("\n- ")).map String.data
    let items := parts.map (fun l => (("\\item ").data) ++ l)
    List.intercalate ['\n']
      ((("\\begin\x7btabitemize\x7d").data) :: items ++ [(("\\end\x7btabitemize\x7d").data)])

/-- `apply` of each kind (cell-level). -/
def applyK : Kind → List Char → Option (List Char)
  | .wrapperK d wv, v =>
    let s := stripWS v
    if s = [] then some []
    else if wv then
      some (('\\' :: optStr d) ++ ('\x7b' :: s) ++ ['\x7d'])
    else
      some (('\\' :: optStr d) ++ (if s.head? = some '\\' then [] else [' ']) ++ s)
  | .bgK c, v => some ((("\\cellcolor\x7b").data) ++ optStr c ++ ('\x7d' :: v))
  | .fgK c, v =>
    some ((("\\color\x7b").data) ++ optStr c ++ (("\x7d\x7b").data) ++ v ++ ['\x7d'])
  | .roundK d dn, v => roundApply d dn v
  | .percentK d, v => pctApply d v
  | .dotK, v => some (if stripWS v = [] then v else ("\\textbullet").data)
  | .cmarkK s, v =>
    some (match s with
          | some t => if stripWS v = t then ("\\cmark").data else v
          | none => v)
  | .xmarkK s, v =>
    some (match s with
          | some t => if stripWS v = t then ("\\xmark").data else v
          | none => v)
  | .listK _, v => some (listApply v)
  | .rowBorder _ _, v => some v
  | .rowWrapperK, v => some v

/-- `apply_row` of each kind; `WrapperBase.apply_row` is the identity. -/
def applyRowK : Kind → List Char → Option (List Char)
  | .rowBorder bt cmd, v =>
    some (if bt then ('\\' :: cmd) ++ ('\n' :: v) else v)
  | .rowWrapperK, v =>
    some (if v = [] then ("\\\\\n").data else v ++ ("\n\\\\\n").data)
  | _, v => some v

/-- Row-scoped (`RowSpans`) or column-scoped (`ColSpans`) span sets. -/
inductive Scope where
  | row
  | col
deriving DecidableEq, Repr

/-- A constructed modifier instance: scope, span set and kind. -/
structure WrapperI where
  scope : Scope
  spans : List Span
  kind : Kind
deriving DecidableEq, Repr

/-- `RowSpans.__contains__` / `ColSpans.__contains__` on a
`(row, col)` coordinate: an undefined axis component never matches. -/
def memCell (w : WrapperI) (cell : Option Int × Option Int) : Bool :=
  match w.scope with
  | .row => match cell.1 with
    | none => false
    | some r => spansMem w.spans r
  | .col => match cell.2 with
    | none => false
    | some c => spansMem w.spans c

/-- `WrapperBase.wrap` (lines 125-128). -/
def wrapCell (w : WrapperI) (cell : Option Int × Option Int) (v : List Char) :
    Option (List Char) :=
  if memCell w cell then applyK w.kind v else some v

/-- `WrapperBase.wrap_row` (lines 130-133), tested at `(row, None)`. -/
def wrapRow (w : WrapperI) (row : Int) (v : List Char) : Option (List Char) :=
  if memCell w (some row, none) then applyRowK w.kind v else some v

/-! ## Registry and modifier-spec parsing (lines 411-438) -/

def registryKeys : List (List Char) :=
  [("bold").data, ("italic").data, ("bg").data, ("fg").data, ("round").data,
   ("percent").data, ("dot").data, ("list").data, ("cmark-if").data,
   ("xmark-if").data, ("wrap").data]

/-- `MODIFIERS[key]` followed by the kind's `parse(spans, args)`:
`none` models a raised exception (unknown key, failed assertion,
failed `int()`, `None.split`). -/
def kindParse (key : List Char) (args : Option (List Char)) : Option Kind :=
  if key = ("bold").data then
    match args with
    | none => some (Kind.wrapperK (some (("bfseries").data)) false)
    | some _ => none
  else if key = ("italic").data then
    match args with
    | none => some (Kind.wrapperK (some (("itshape").data)) false)
    | some _ => none
  else if key = ("bg").data then some (Kind.bgK args)
  else if key = ("fg").data then some (Kind.fgK args)
  else if key = ("round").data then
    match args with
    | none => none
    | some a =>
      let parts := splitOnC ',' a
      let dn := decide (1 < parts.length) && decide (parts.getD 1 [] = ("down").data)
      (parseIntPy (parts.getD 0 [])).map (fun d => Kind.roundK d dn)
  else if key = ("percent").data then
    match args with
    | none => none
    | some a => (parseIntPy a).map Kind.percentK
  else if key = ("dot").data then
    match args with
    | none => some Kind.dotK
    | some _ => none
  else if key = ("list").data then some (Kind.listK args)
  else if key = ("cmark-if").data then some (Kind.cmarkK args)
  else if key = ("xmark-if").data then some (Kind.xmarkK args)
  else if key = ("wrap").data then some (Kind.wrapperK args true)
  else none

/-- `m.split(":", 2)`: at most three pieces. A single piece (no colon)
is an invalid modifier spec. -/
def splitColon2 (m : List Char) : Option (List Char × List Char × Option (List Char)) :=
  match splitFirst ':' m with
  | none => none
  | some p =>
    match splitFirst ':' p.2 with
    | none => some (p.1, p.2, none)
    | some q => some (p.1, q.1, some q.2)

/-- `parse_modifier` (lines 426-438). -/
def parseModifierM (sc : Scope) (m : List Char) : Option WrapperI :=
  match splitColon2 m with
  | none => none
  | some t =>
    match spansParse t.1 with
    | none => none
    | some sp => (kindParse t.2.1 t.2.2).map (fun k => WrapperI.mk sc sp k)

/-! ## The pipeline and the renderer (lines 167-199, 441-546) -/

/-- The ordering used by `wrappers.sort(key=lambda w: w.priority,
reverse=True)`: `a` may precede `b` iff `a`'s priority is at least
`b`'s.  Python's sort is stable, as is insertion sort with this
relation. -/
def wGe (a b : WrapperI) : Prop :=
  priority b.kind ≤ priority a.kind

instance : DecidableRel wGe := fun a b =>
  inferInstanceAs (Decidable (priority b.kind ≤ priority a.kind))

instance : IsTotal WrapperI wGe := ⟨fun a b => le_total (priority b.kind) (priority a.kind)⟩

instance : IsTrans WrapperI wGe := ⟨fun _ _ _ h1 h2 => le_trans h2 h1⟩

def sortWrappers (l : List WrapperI) : List WrapperI :=
  List.insertionSort wGe l

/-- The cell loop `for wrapper in wrappers: cell = wrapper.wrap(...)`
(lines 193-194); an exception aborts the whole run (`none`). -/
def applyCellPipeline : List WrapperI → Option Int × Option Int → List Char → Option (List Char)
  | [], _, v => some v
  | w :: ws, c, v => (wrapCell w c v).bind (applyCellPipeline ws c)

/-- The row loop `for wrapper in wrappers: value = wrapper.wrap_row(...)`
(lines 197-198). -/
def applyRowPipeline : List WrapperI → Int → List Char → Option (List Char)
  | [], _, v => some v
  | w :: ws, r, v => (wrapRow w r v).bind (applyRowPipeline ws r)

/-- The per-cell half of `print_row` (lines 186-195): quote each cell,
record whether any quoted raw value is non-empty, then run the cell
pipeline; returns the processed values and the flag. -/
def processCells (ws : List WrapperI) (row : Nat) :
    Nat → List (List Char) → Bool → Option (List (List Char) × Bool)
  | _, [], hv => some ([], hv)
  | col, c :: rest, hv =>
    let q := quote c
    (applyCellPipeline ws (some (Int.ofNat row), some (Int.ofNat col)) q).bind fun v =>
      (processCells ws row (col + 1) rest (hv || !q.isEmpty)).map fun p => (v :: p.1, p.2)

/-- `simple_row` (lines 441-442), the default row template. -/
def simpleRow (values : List (List Char)) (hasValue : Bool) : List Char :=
  if hasValue then List.intercalate ((" & ").data) values else []

/-- `print_row` (lines 185-199): process the cells, render the line via
the template, then run every wrapper's row-level hook at `(row, None)`. -/
def printRowM (ws : List WrapperI) (row : Nat) (cells : List (List Char))
    (tmpl : List (List Char) → Bool → List Char) : Option (List Char) :=
  (processCells ws row 0 cells false).bind fun p =>
    applyRowPipeline ws (Int.ofNat row) (tmpl p.1 p.2)

/-- `dict(zip(header, fields))[k]`: last binding of a key wins;
a missing key raises (`none`). -/
def lookupAssoc (r : List (List Char × List Char)) (k : List Char) : Option (List Char) :=
  (r.reverse.find? (fun p => p.1 == k)).map Prod.snd

def lookupAll (r : List (List Char × List Char)) : List (List Char) → Option (List (List Char))
  | [] => some []
  | k :: ks => (lookupAssoc r k).bind fun v => (lookupAll r ks).map fun vs => v :: vs

/-- The row loop of `print_table` (lines 181-182), with `print(value,
end="")` modelled as concatenation of the emitted text. -/
def renderRows (ws : List WrapperI) (tmpl : List (List Char) → Bool → List Char)
    (cols : List (List Char)) : Nat → List (List (List Char × List Char)) → Option (List Char)
  | _, [] => some []
  | i, r :: rest =>
    (lookupAll r cols).bind fun cells =>
      (printRowM ws i cells tmpl).bind fun line =>
        (renderRows ws tmpl cols (i + 1) rest).map fun out => line ++ out

/-- `print_table` (lines 167-182) on an already-split header and data
rows: select columns by the column span set and the exclusion list,
optionally prepend the synthetic header row `dict(zip(cols, cols))`,
filter rows by the row span set and render each with its position in the
filtered sequence as its row index. -/
def printTableM (ws : List WrapperI) (rowSp colSp : List Span)
    (skipCols : List (List Char)) (skipHdr : Bool)
    (tmpl : List (List Char) → Bool → List Char)
    (hdr : List (List Char)) (rows : List (List (List Char))) : Option (List Char) :=
  let cols := (spansFilter colSp hdr).filter (fun c => !(skipCols.contains c))
  let rowsAssoc := rows.map (fun r => hdr.zip r)
  let allRows := if skipHdr then rowsAssoc else (cols.zip cols) :: rowsAssoc
  renderRows ws tmpl cols 0 (spansFilter rowSp allRows)

/-- The two always-present wrappers built in `main` (lines 499-509) with
default options: the row-border wrapper covers every row but the first
(`Span(1, None)`) with the middle border enabled and command `midrule`;
the row wrapper covers all rows. -/
def rowBorderW : WrapperI :=
  WrapperI.mk Scope.row [Span.mk (some 1) none] (Kind.rowBorder true (("midrule").data))

def rowWrapperW : WrapperI :=
  WrapperI.mk Scope.row [Span.mk none none] Kind.rowWrapperK

def defaultWrappers : List WrapperI := [rowBorderW, rowWrapperW]

def parseAll (sc : Scope) : List (List Char) → Option (List WrapperI)
  | [] => some []
  | m :: rest =>
    (parseModifierM sc m).bind fun w => (parseAll sc rest).map fun ws => w :: ws

/-- Lines 499-516: the defaults, then the parsed row modifiers, then the
parsed column modifiers, sorted once by priority descending. -/
def buildWrappers (rowMods colMods : List (List Char)) : Option (List WrapperI) :=
  (parseAll Scope.row rowMods).bind fun rw =>
    (parseAll Scope.col colMods).bind fun cw =>
      some (sortWrappers ((defaultWrappers ++ rw) ++ cw))

/-- A single CSV field: surrounding double quotes are removed (the
`csv` module; fields with embedded commas or escaped quotes are not
needed by any claim). -/
def unquoteField (f : List Char) : List Char :=
  match f with
  | '\"' :: rest =>
    match rest.getLast? with
    | some '\"' => rest.dropLast
    | _ => f
  | _ => f

def csvFields (line : List Char) : List (List Char) :=
  (splitOnC ',' line).map unquoteField

/-- `main` (lines 480-546) with every option at its default except the
row/column modifier lists: comma-delimited input, `start_at = 0`,
row/column filters `all`, no excluded columns, headers skipped, default
borders, default template `simple_row`, and a trailing
`print(r"\midrule")` for the default-on bottom border.  Any
configuration error while parsing modifiers yields `none` (the process
aborts before producing output). -/
def mainModel (rowMods colMods : List (List Char)) (csv : List Char) : Option (List Char) :=
  (buildWrappers rowMods colMods).bind fun ws =>
    match (splitOnC '\n' csv).filter (fun l => !l.isEmpty) with
    | [] => none
    | hdr :: dataLines =>
      (printTableM ws spansAll spansAll [] true simpleRow (csvFields hdr)
          (dataLines.map csvFields)).map
        (fun out => out ++ ("\\midrule\n").data)

/-! ## Lemmas about `quote` -/

/-- The seven characters escaped by `quote`. -/
def isSpecial (c : Char) : Bool :=
  c = '%' ∨ c = '#' ∨ c = '&' ∨ c = '$' ∨ c = '_' ∨ c = '\x7b' ∨ c = '\x7d'

/-- Per-character escaping: specials get a backslash, others are kept. -/
def escChar (c : Char) : List Char :=
  if isSpecial c then ['\\', c] else [c]

theorem replaceChar_append (c : Char) (n s t : List Char) :
    replaceChar c n (s ++ t) = replaceChar c n s ++ replaceChar c n t := by
  simp [replaceChar]

theorem escPart_append (s t : List Char) :
    escPart (s ++ t) = escPart s ++ escPart t := by
  simp [escPart, replaceChar_append]

theorem escPart_single (c : Char) : escPart [c] = escChar c := by
  by_cases hs : isSpecial c = true
  · simp only [isSpecial, decide_eq_true_eq] at hs
    rcases hs with h | h | h | h | h | h | h <;> subst h <;> decide
  · have hs' : ¬(c = '%' ∨ c = '#' ∨ c = '&' ∨ c = '$' ∨ c = '_' ∨ c = '\x7b' ∨ c = '\x7d') := by
      simpa [isSpecial, decide_eq_true_eq] using hs
    push_neg at hs'
    obtain ⟨h1, h2, h3, h4, h5, h6, h7⟩ := hs'
    simp [escPart, escChar, replaceChar, hs, h1, h2, h3, h4, h5, h6, h7]

theorem escPart_chars (s : List Char) : escPart s = s.flatMap escChar := by
  induction s with
  | nil => simp [escPart, replaceChar]
  | cons c t ih =>
    have : (c :: t) = [c] ++ t := rfl
    rw [this, escPart_append, ih, escPart_single]
    simp

theorem replace2_cons_ne (a b x : Char) (n t : List Char) (h : x ≠ a) :
    replace2 a b n (x :: t) = x :: replace2 a b n t := by
  cases t with
  | nil => rfl
  | cons y r => simp [replace2, h]

theorem replace2_nobs (n s : List Char) (h : ∀ c ∈ s, c ≠ '\\') :
    replace2 '\\' '\\' n s = s := by
  induction s with
  | nil => rfl
  | cons c t ih =>
    rw [replace2_cons_ne _ _ _ _ _ (h c (List.mem_cons_self _ _))]
    rw [ih (fun x hx => h x (List.mem_cons_of_mem _ hx))]

theorem special_ne_bs (c : Char) (h : isSpecial c = true) : c ≠ '\\' := by
  simp only [isSpecial, decide_eq_true_eq] at h
  rcases h with h | h | h | h | h | h | h <;> subst h <;> decide

theorem special_not_ws (c : Char) (h : isSpecial c = true) : isPyWS c = false := by
  simp only [isSpecial, decide_eq_true_eq] at h
  rcases h with h | h | h | h | h | h | h <;> subst h <;> decide

theorem replace2_escaped (n s : List Char) (h : ∀ c ∈ s, c ≠ '\\') :
    replace2 '\\' '\\' n (s.flatMap escChar) = s.flatMap escChar := by
  induction s with
  | nil => rfl
  | cons c t ih =>
    have hc : c ≠ '\\' := h c (List.mem_cons_self _ _)
    have iht := ih (fun x hx => h x (List.mem_cons_of_mem _ hx))
    by_cases hs : isSpecial c = true
    · have h1 : (c :: t).flatMap escChar = '\\' :: c :: t.flatMap escChar := by
        simp [escChar, hs]
      rw [h1]
      have h2 : replace2 '\\' '\\' n ('\\' :: c :: t.flatMap escChar) =
          '\\' :: replace2 '\\' '\\' n (c :: t.flatMap escChar) := by
        simp [replace2, hc]
      rw [h2, replace2_cons_ne _ _ _ _ _ hc, iht]
    · have h1 : (c :: t).flatMap escChar = c :: t.flatMap escChar := by
        simp [escChar, hs]
      rw [h1, replace2_cons_ne _ _ _ _ _ hc, iht]

theorem dropWhile_all_false (p : Char → Bool) (s : List Char)
    (h : ∀ c ∈ s, p c = false) : s.dropWhile p = s := by
  cases s with
  | nil => rfl
  | cons c t => rw [List.dropWhile_cons, if_neg (by simp [h c (List.mem_cons_self _ _)])]

theorem dropWhile_all_true (p : Char → Bool) (s : List Char)
    (h : ∀ c ∈ s, p c = true) : s.dropWhile p = [] := by
  induction s with
  | nil => rfl
  | cons c t ih =>
    rw [List.dropWhile_cons, if_pos (by simp [h c (List.mem_cons_self _ _)])]
    exact ih (fun x hx => h x (List.mem_cons_of_mem _ hx))

theorem stripWS_id (s : List Char) (h : ∀ c ∈ s, isPyWS c = false) :
    stripWS s = s := by
  unfold stripWS
  rw [dropWhile_all_false _ _ h,
    dropWhile_all_false _ _ (fun c hc => h c (List.mem_reverse.mp hc)),
    List.reverse_reverse]

theorem stripWS_all_ws (s : List Char) (h : ∀ c ∈ s, isPyWS c = true) :
    stripWS s = [] := by
  unfold stripWS
  rw [dropWhile_all_true _ _ h]
  rfl

theorem quote_chars (s : List Char) (h : ∀ c ∈ s, c ≠ '\\')
    (h2 : stripWS s = s) : quote s = s.flatMap escChar := by
  by_cases hnil : s = []
  · subst hnil; rfl
  · unfold quote quoteChain
    rw [if_neg hnil, h2, escPart_chars, replace2_escaped _ _ h]

theorem quote_ws_only (s : List Char) (h : ∀ c ∈ s, isPyWS c = true) :
    quote s = [] := by
  by_cases hnil : s = []
  · subst hnil; rfl
  · unfold quote quoteChain
    rw [if_neg hnil, stripWS_all_ws _ h]
    rfl

theorem quote_special_append (a b : List Char)
    (ha : ∀ c ∈ a, isSpecial c = true) (hb : ∀ c ∈ b, isSpecial c = true) :
    quote (a ++ b) = quote a ++ quote b := by
  have hq : ∀ s : List Char, (∀ c ∈ s, isSpecial c = true) → quote s = s.flatMap escChar := by
    intro s hs
    exact quote_chars s (fun c hc => special_ne_bs c (hs c hc))
      (stripWS_id s (fun c hc => special_not_ws c (hs c hc)))
  rw [hq a ha, hq b hb,
    hq (a ++ b) (fun c hc => (List.mem_append.mp hc).elim (ha c) (hb c))]
  simp

theorem alnum_ne_bs (c : Char) (h : c.isAlphanum = true) : c ≠ '\\' := by
  intro heq; subst heq; exact absurd h (by decide)

theorem alnum_not_ws (c : Char) (h : c.isAlphanum = true) : isPyWS c = false := by
  by_cases hw : isPyWS c = true
  · simp only [isPyWS, decide_eq_true_eq] at hw
    rcases hw with hc | hc | hc | hc | hc | hc <;> subst hc <;> exact absurd h (by decide)
  · simpa using hw

theorem alnum_not_special (c : Char) (h : c.isAlphanum = true) : isSpecial c = false := by
  by_cases hs : isSpecial c = true
  · simp only [isSpecial, decide_eq_true_eq] at hs
    rcases hs with hc | hc | hc | hc | hc | hc | hc <;> subst hc <;>
      exact absurd h (by decide)
  · simpa using hs

theorem flatMap_escChar_plain (s : List Char) (h : ∀ c ∈ s, isSpecial c = false) :
    s.flatMap escChar = s := by
  induction s with
  | nil => rfl
  | cons c t ih =>
    simp only [List.flatMap_cons]
    rw [show escChar c = [c] from by simp [escChar, h c (List.mem_cons_self _ _)]]
    rw [ih (fun x hx => h x (List.mem_cons_of_mem _ hx))]
    simp

theorem replace2_mid (n l r : List Char) (hl : ∀ c ∈ l, c ≠ '\\')
    (_hr : ∀ c ∈ r, c ≠ '\\') :
    replace2 '\\' '\\' n (l ++ '\\' :: '\\' :: r) = l ++ (n ++ replace2 '\\' '\\' n r) := by
  induction l with
  | nil =>
    simp only [List.nil_append]
    simp [replace2]
  | cons c t ih =>
    have hc : c ≠ '\\' := hl c (List.mem_cons_self _ _)
    simp only [List.cons_append]
    rw [replace2_cons_ne _ _ _ _ _ hc, ih (fun x hx => hl x (List.mem_cons_of_mem _ hx))]

theorem quote_double_bs (pre post : List Char)
    (hpre : ∀ c ∈ pre, c.isAlphanum = true) (hpost : ∀ c ∈ post, c.isAlphanum = true) :
    quote (pre ++ '\\' :: '\\' :: post) = pre ++ '\\' :: '\\' :: '\\' :: '\\' :: post := by
  have hnil : pre ++ '\\' :: '\\' :: post ≠ [] := by
    intro h; exact absurd (congrArg List.length h) (by simp)
  have hws : ∀ c ∈ pre ++ '\\' :: '\\' :: post, isPyWS c = false := by
    intro c hc
    rcases List.mem_append.mp hc with h | h
    · exact alnum_not_ws c (hpre c h)
    · rcases h with _ | ⟨_, h⟩
      · decide
      · rcases h with _ | ⟨_, h⟩
        · decide
        · exact alnum_not_ws c (hpost c h)
  unfold quote quoteChain
  rw [if_neg hnil, stripWS_id _ hws]
  have e1 : escPart (pre ++ '\\' :: '\\' :: post) = pre ++ '\\' :: '\\' :: post := by
    rw [show (pre ++ '\\' :: '\\' :: post) = pre ++ (['\\', '\\'] ++ post) from by simp,
      escPart_append, escPart_append, escPart_chars pre, escPart_chars post,
      flatMap_escChar_plain pre (fun c hc => alnum_not_special c (hpre c hc)),
      flatMap_escChar_plain post (fun c hc => alnum_not_special c (hpost c hc)),
      show escPart ['\\', '\\'] = ['\\', '\\'] from by decide]
  rw [e1,
    replace2_mid _ _ _ (fun c hc => alnum_ne_bs c (hpre c hc))
      (fun c hc => alnum_ne_bs c (hpost c hc)),
    replace2_nobs _ _ (fun c hc => alnum_ne_bs c (hpost c hc))]
  simp

/-! ## Lemmas about `Spans.filter` -/

theorem spansFilterAux_enumFrom {α : Type _} (l : List Span) (xs : List α) :
    ∀ n, spansFilterAux l n xs =
      ((xs.enumFrom n).filter (fun p => spansMem l (Int.ofNat p.1))).map Prod.snd := by
  induction xs with
  | nil => intro n; rfl
  | cons x t ih =>
    intro n
    have e2 : List.enumFrom n (x :: t) = (n, x) :: List.enumFrom (n + 1) t := rfl
    by_cases h : spansMem l (Int.ofNat n) = true
    · have e1 : spansFilterAux l n (x :: t) = x :: spansFilterAux l (n + 1) t := by
        simp only [spansFilterAux]; rw [if_pos h]
      rw [e1, e2, ih, List.filter_cons, if_pos (by exact h), List.map_cons]
    · have e1 : spansFilterAux l n (x :: t) = spansFilterAux l (n + 1) t := by
        simp only [spansFilterAux]; rw [if_neg h]
      rw [e1, e2, ih, List.filter_cons, if_neg (by exact h)]

/-! ## Claim theorems -/

/-- C1 (amended).  With CSV input `a,b` / `1,"(5)"` / `2,10` and the
single column modifier `0:round:0` under default options, `round`
applies to column 0 only (values `1` and `2`), so `(5)` in column 1 is
emitted untouched, and the default-on middle border prepends a
horizontal rule line to every row after the first.  The full output is
`1 & (5)`, the line terminator, a rule line, `2 & 10`, the line
terminator, and the trailing rule. -/
theorem c1_end_to_end_render :
    mainModel [] [(("0:round:0").data)] (("a,b\n1,\"(5)\"\n2,10\n").data) =
      some (("1 & (5)\n\\\\\n\\midrule\n2 & 10\n\\\\\n\\midrule\n").data) := by
  decide

/-- C1, counterexample to the claim as stated: the render does not
produce the claimed two lines `1 & -5 \\` and `2 & 10 \\` plus a single
trailing rule. -/
theorem c1_cx :
    mainModel [] [(("0:round:0").data)] (("a,b\n1,\"(5)\"\n2,10\n").data) ≠
      some (("1 & -5\n\\\\\n2 & 10\n\\\\\n\\midrule\n").data) := by
  decide

/-- C2 (amended).  `Spans.filter` yields exactly the *elements* `xs[i]`
for the indices `i` contained in the span set, in increasing index
order — the original indices are tested but not yielded. -/
theorem c2_filter_elements {α : Type _} (l : List Span) (xs : List α) :
    spansFilter l xs =
      ((xs.enum).filter (fun p => spansMem l (Int.ofNat p.1))).map Prod.snd := by
  unfold spansFilter
  rw [spansFilterAux_enumFrom]
  rfl

/-- C2, counterexample to the claim as stated: filtering `[(9, 9)]`
through the all-span yields the raw element `(9, 9)` — its first
component is `9`, not the original index `0` that the claimed
`(original_index, element)` pair form would carry (the spec-faithful
pair-yielding variant `spansFilterSpecPairs` produces `(0, (9, 9))`). -/
theorem c2_cx :
    (spansFilter spansAll [((9 : Nat), (9 : Nat))]).map Prod.fst = [9] ∧
      spansFilterSpecPairs spansAll 0 [((9 : Nat), (9 : Nat))] = [(0, (9, 9))] ∧
      (9 : Nat) ≠ 0 := by
  decide

/-- C6 (confirmed).  (1) On any backslash-free string equal to its own
strip, `quote` escapes exactly the special characters (percent, hash,
ampersand, dollar, underscore, braces) by prefixing a backslash and
leaves every other character (in particular alphanumerics) untouched;
(2) whitespace-only or empty input quotes to the empty string; (3)
`quote` is a homomorphism over concatenation for strings drawn from the
escaped character set; (4) a backslash-backslash pair (between
alphanumeric text) is doubled. -/
theorem c6_quote :
    (∀ s : List Char, (∀ c ∈ s, c ≠ '\\') → stripWS s = s →
        quote s = s.flatMap escChar) ∧
    (∀ s : List Char, (∀ c ∈ s, isPyWS c = true) → quote s = []) ∧
    (∀ a b : List Char, (∀ c ∈ a, isSpecial c = true) → (∀ c ∈ b, isSpecial c = true) →
        quote (a ++ b) = quote a ++ quote b) ∧
    (∀ pre post : List Char,
        (∀ c ∈ pre, c.isAlphanum = true) → (∀ c ∈ post, c.isAlphanum = true) →
        quote (pre ++ '\\' :: '\\' :: post) = pre ++ '\\' :: '\\' :: '\\' :: '\\' :: post) :=
  ⟨quote_chars, quote_ws_only, quote_special_append, quote_double_bs⟩

/-- C6, witness: the characterization applied to the spec's example
`50% & 3#` (all three specials escaped, alphanumerics and interior
spaces untouched), to whitespace-only input, to a concatenation of
special-only strings, and to a doubled backslash pair. -/
theorem c6_quote_witness :
    quote (("50% & 3#").data) = (("50\\% \\& 3\\#").data) ∧
      quote (("  ").data) = [] ∧
      quote (("%#").data) = quote (("%").data) ++ quote (("#").data) ∧
      quote (("a\\\\b").data) = (("a\\\\\\\\b").data) := by
  refine ⟨?_, ?_, ?_, ?_⟩
  · rw [c6_quote.1 (("50% & 3#").data) (by decide) (by decide)]; decide
  · exact c6_quote.2.1 (("  ").data) (by decide)
  · have h := c6_quote.2.2.1 (("%").data) (("#").data) (by decide) (by decide)
    exact h
  · have h := c6_quote.2.2.2 (("a").data) (("b").data) (by decide) (by decide)
    exact h

/-- C7 (amended).  Applying `round` to a value that fails the numeric
test is never an error: after the parenthesized-negative rewrite
`(x) → -x`, a still-non-matching value is wrapped in a brace group, with
a value whose stripped form is `...` first replaced by the ellipsis
command (yielding the brace-wrapped ellipsis command). -/
theorem c7_round_nonnumeric (d : Int) (down : Bool) (v : List Char)
    (h : pyMatchNum (parenRewrite v) = false) :
    roundApply d down v =
      some (('\x7b' ::
        (if stripWS (parenRewrite v) = ("...").data then ("\\dots").data
         else parenRewrite v)) ++ ['\x7d']) := by
  simp [roundApply, h]

/-- C7, witness: `round(0)` on `n/a` (non-numeric) yields `{n/a}`. -/
theorem c7_witness :
    roundApply 0 false (("n/a").data) = some (("\x7bn/a\x7d").data) := by
  have h := c7_round_nonnumeric 0 false (("n/a").data) (by decide)
  rw [h]; decide

/-- C7, counterexample to the claim as stated: `(abc)` does not match
the numeric pattern, yet it is not "passed through wrapped in a brace
group but otherwise unchanged": the parenthesized form is rewritten to
`-abc` first, so the output is `{-abc}`, not `{(abc)}`. -/
theorem c7_cx :
    roundApply 0 false (("(abc)").data) = some (("\x7b-abc\x7d").data) ∧
      (("\x7b-abc\x7d").data : List Char) ≠ (("\x7b(abc)\x7d").data) := by
  decide

/-- C9 (confirmed).  The always-present `RowWrapper` (covering all rows)
appends newline + row separator + newline to a non-empty row text and
emits the bare separator-terminator for an empty row text; the result is
never the empty string. -/
theorem c9_row_wrapper (r : Int) (v : List Char) :
    wrapRow rowWrapperW r v =
        some (if v = [] then ("\\\\\n").data else v ++ ("\n\\\\\n").data) ∧
      (if v = [] then ("\\\\\n").data else v ++ ("\n\\\\\n").data) ≠ [] ∧
      rowWrapperW ∈ defaultWrappers := by
  refine ⟨?_, ?_, by simp [defaultWrappers]⟩
  · simp [wrapRow, memCell, rowWrapperW, spansMem, spanMem, applyRowK]
  · by_cases hv : v = []
    · simp [hv]
    · simp [hv]

/-! ## Lemmas about the has-value flag and configuration errors -/

theorem processCells_flag (ws : List WrapperI) (row : Nat) :
    ∀ (cells : List (List Char)) (col : Nat) (b : Bool)
      (out : List (List Char) × Bool),
      processCells ws row col cells b = some out →
      out.2 = (b || cells.any (fun c => !(quote c).isEmpty)) := by
  intro cells
  induction cells with
  | nil =>
    intro col b out h
    simp only [processCells, Option.some.injEq] at h
    rw [← h]
    simp
  | cons c t ih =>
    intro col b out h
    simp only [processCells] at h
    cases ha : applyCellPipeline ws (some (Int.ofNat row), some (Int.ofNat col)) (quote c) with
    | none => rw [ha] at h; simp at h
    | some v =>
      rw [ha] at h
      cases hp : processCells ws row (col + 1) t (b || !(quote c).isEmpty) with
      | none => rw [hp] at h; simp at h
      | some p =>
        rw [hp] at h
        replace h : (v :: p.1, p.2) = out := by simpa using h
        have := ih (col + 1) (b || !(quote c).isEmpty) p hp
        rw [← h]
        simp only [this, List.any_cons]
        rw [Bool.or_assoc]

/-- C10 (confirmed).  The "any non-empty" flag computed by the cell loop
of `print_row` and handed to the row template is true iff at least one
*quoted raw* cell value is non-empty; it is the same for every modifier
pipeline `ws`, so no modifier — whether it empties a non-empty cell or
fills an empty one — can change it. -/
theorem c10_has_value_flag (ws : List WrapperI) (row : Nat)
    (cells : List (List Char)) (out : List (List Char) × Bool)
    (h : processCells ws row 0 cells false = some out) :
    out.2 = cells.any (fun c => !(quote c).isEmpty) := by
  have := processCells_flag ws row cells 0 false out h
  simpa using this

/-- C10, witness: a row whose cells quote to `""` and `"x"` gets the
flag `true` (already with the empty pipeline). -/
theorem c10_witness :
    ([([] : List Char), ['x']].any (fun c => !(quote c).isEmpty)) = true := by
  have h := c10_has_value_flag [] 0 [([] : List Char), ['x']] ([[], ['x']], true)
    (by decide)
  exact h.symm

theorem kindParse_unknown (key : List Char) (args : Option (List Char))
    (h : ¬ key ∈ registryKeys) : kindParse key args = none := by
  simp only [registryKeys, List.mem_cons, List.not_mem_nil, or_false, not_or] at h
  obtain ⟨h1, h2, h3, h4, h5, h6, h7, h8, h9, h10, h11⟩ := h
  simp [kindParse, h1, h2, h3, h4, h5, h6, h7, h8, h9, h10, h11]

theorem parseAll_none (sc : Scope) (l : List (List Char)) (m : List Char)
    (hm : m ∈ l) (he : parseModifierM sc m = none) : parseAll sc l = none := by
  induction l with
  | nil => cases hm
  | cons a t ih =>
    rcases List.mem_cons.mp hm with h | h
    · subst h; simp [parseAll, he]
    · cases hp : parseModifierM sc a with
      | none => simp [parseAll, hp]
      | some w => simp [parseAll, hp, ih h]

theorem buildWrappers_none_row (rm cm : List (List Char)) (m : List Char)
    (hm : m ∈ rm) (he : parseModifierM Scope.row m = none) :
    buildWrappers rm cm = none := by
  simp [buildWrappers, parseAll_none Scope.row rm m hm he]

theorem buildWrappers_none_col (rm cm : List (List Char)) (m : List Char)
    (hm : m ∈ cm) (he : parseModifierM Scope.col m = none) :
    buildWrappers rm cm = none := by
  cases hr : parseAll Scope.row rm with
  | none => simp [buildWrappers, hr]
  | some rw => simp [buildWrappers, hr, parseAll_none Scope.col cm m hm he]

/-- C8 (amended).  (1) An unknown registry key makes `parse_modifier`
raise; (2) so does a span whose non-empty piece fails to parse; (3) so
does any argument — even the empty string — supplied to `bold` or
`italic` (their `parse` asserts `args is None`); (5)-(6) any modifier
whose parse raises makes the whole run abort with no output produced.
But (4): the *empty span text* is not an error — `Spans.parse` drops
empty pieces and yields the empty span set, so such a modifier is
accepted and simply never applies. -/
theorem c8_config_errors :
    (∀ (sc : Scope) (m : List Char) t, splitColon2 m = some t →
        ¬ t.2.1 ∈ registryKeys → parseModifierM sc m = none) ∧
    (∀ (sc : Scope) (m : List Char) t, splitColon2 m = some t →
        spansParse t.1 = none → parseModifierM sc m = none) ∧
    (∀ a : List Char, kindParse (("bold").data) (some a) = none ∧
        kindParse (("italic").data) (some a) = none) ∧
    (spansParse [] = some []) ∧
    (∀ (rm cm : List (List Char)) (csv m : List Char), m ∈ rm →
        parseModifierM Scope.row m = none → mainModel rm cm csv = none) ∧
    (∀ (rm cm : List (List Char)) (csv m : List Char), m ∈ cm →
        parseModifierM Scope.col m = none → mainModel rm cm csv = none) := by
  refine ⟨?_, ?_, ?_, by decide, ?_, ?_⟩
  · intro sc m t ht hk
    simp only [parseModifierM, ht]
    cases hs : spansParse t.1 with
    | none => rfl
    | some sp => simp [kindParse_unknown t.2.1 t.2.2 hk]
  · intro sc m t ht hs
    simp [parseModifierM, ht, hs]
  · intro a
    constructor <;> simp [kindParse]
  · intro rm cm csv m hm he
    simp [mainModel, buildWrappers_none_row rm cm m hm he]
  · intro rm cm csv m hm he
    simp [mainModel, buildWrappers_none_col rm cm m hm he]

/-- C8, witness: an unknown key `nope`, a malformed span `y`, an
argument to `bold`, and a full run whose single column modifier has an
argument to `bold`: all raise, and the run emits nothing. -/
theorem c8_witness :
    parseModifierM Scope.col (("0:nope:x").data) = none ∧
      parseModifierM Scope.row (("y:round:0").data) = none ∧
      kindParse (("bold").data) (some (("z").data)) = none ∧
      mainModel [] [(("0:bold:z").data)] (("a,b\n1,2\n").data) = none := by
  refine ⟨?_, ?_, ?_, ?_⟩
  · exact c8_config_errors.1 Scope.col (("0:nope:x").data)
      ((("0").data), (("nope").data), some (("x").data)) (by decide) (by decide)
  · exact c8_config_errors.2.1 Scope.row (("y:round:0").data)
      ((("y").data), (("round").data), some (("0").data)) (by decide) (by decide)
  · exact (c8_config_errors.2.2.1 (("z").data)).1
  · exact c8_config_errors.2.2.2.2.2 [] [(("0:bold:z").data)]
      (("a,b\n1,2\n").data) (("0:bold:z").data) (by decide) (by decide)

/-- C8, counterexample to the claim as stated: the empty span text is
accepted — `:round:0` parses to a modifier with the empty span set, and
a run configured with it still produces output (no abort). -/
theorem c8_cx :
    parseModifierM Scope.col ((":round:0").data) =
        some (WrapperI.mk Scope.col [] (Kind.roundK 0 false)) ∧
      (mainModel [] [((":round:0").data)] (("a,b\n1,2\n").data)).isSome = true := by
  decide

/-! ## Digit-string lemmas -/

theorem digit_bounds (c : Char) (h : c.isDigit = true) : '0' ≤ c ∧ c ≤ '9' := by
  simpa [Char.isDigit] using h

theorem digit_ne (c : Char) (h : c.isDigit = true) :
    c ≠ '(' ∧ c ≠ ')' ∧ c ≠ '-' ∧ c ≠ '+' ∧ c ≠ ',' ∧ c ≠ '.' ∧ c ≠ '\n' := by
  refine ⟨?_, ?_, ?_, ?_, ?_, ?_, ?_⟩ <;>
    (intro heq; subst heq; exact absurd h (by decide))

theorem digit_not_ws (c : Char) (h : c.isDigit = true) : isPyWS c = false := by
  by_cases hw : isPyWS c = true
  · simp only [isPyWS, decide_eq_true_eq] at hw
    rcases hw with hc | hc | hc | hc | hc | hc <;> subst hc <;> exact absurd h (by decide)
  · simpa using hw

theorem partitionDash_no_dash (s : List Char) (h : ∀ c ∈ s, c ≠ '-') :
    partitionDash s = (s, false, []) := by
  induction s with
  | nil => rfl
  | cons c t ih =>
    simp only [partitionDash, ih (fun x hx => h x (List.mem_cons_of_mem _ hx))]
    rw [if_neg (h c (List.mem_cons_self _ _))]

theorem partitionDash_mid (a b : List Char) (h : ∀ c ∈ a, c ≠ '-') :
    partitionDash (a ++ '-' :: b) = (a, true, b) := by
  induction a with
  | nil => simp [partitionDash]
  | cons c t ih =>
    have ih' := ih (fun x hx => h x (List.mem_cons_of_mem _ hx))
    simp only [List.cons_append, partitionDash]
    rw [if_neg (h c (List.mem_cons_self _ _))]
    simp [ih']

theorem parseIntPy_digits (s : List Char) (h1 : s ≠ [])
    (h2 : ∀ c ∈ s, c.isDigit = true) :
    parseIntPy s = some ((natOfDigits s : Nat) : Int) := by
  have hws : stripWS s = s := stripWS_id s (fun c hc => digit_not_ws c (h2 c hc))
  cases s with
  | nil => exact absurd rfl h1
  | cons c t =>
    have hd := h2 c (List.mem_cons_self _ _)
    simp only [parseIntPy, hws]
    rw [if_neg (digit_ne c hd).2.2.1, if_neg (digit_ne c hd).2.2.2.1]
    have hall : (c :: t).all Char.isDigit = true := List.all_eq_true.mpr h2
    simp [parseNatDigits, hall]

/-- C4 (amended).  `Span.parse` maps the textual forms (with `n`, `a`,
`b` nonempty digit strings) to: `n` ↦ `[n, n+1)`; `a-b` ↦ `[a, b+1)`;
`a-` ↦ `[a, ∞)`; and `-b` ↦ `(-∞, b+1)` — the `-b` form has *no lower
bound*: membership is `i < b+1` for every integer `i`, not
`0 ≤ i < b+1`. -/
theorem c4_span_parse :
    (∀ s : List Char, s ≠ [] → (∀ c ∈ s, c.isDigit = true) →
        spanParse s =
            some (Span.mk (some (natOfDigits s : Int)) (some ((natOfDigits s : Int) + 1))) ∧
          ∀ i : Int,
            spanMem (Span.mk (some (natOfDigits s : Int)) (some ((natOfDigits s : Int) + 1))) i
                = true ↔
              ((natOfDigits s : Int) ≤ i ∧ i < (natOfDigits s : Int) + 1)) ∧
    (∀ a b : List Char, a ≠ [] → (∀ c ∈ a, c.isDigit = true) →
        b ≠ [] → (∀ c ∈ b, c.isDigit = true) →
        spanParse (a ++ '-' :: b) =
            some (Span.mk (some (natOfDigits a : Int)) (some ((natOfDigits b : Int) + 1))) ∧
          ∀ i : Int,
            spanMem (Span.mk (some (natOfDigits a : Int)) (some ((natOfDigits b : Int) + 1))) i
                = true ↔
              ((natOfDigits a : Int) ≤ i ∧ i < (natOfDigits b : Int) + 1)) ∧
    (∀ a : List Char, a ≠ [] → (∀ c ∈ a, c.isDigit = true) →
        spanParse (a ++ ['-']) = some (Span.mk (some (natOfDigits a : Int)) none) ∧
          ∀ i : Int, spanMem (Span.mk (some (natOfDigits a : Int)) none) i = true ↔
            (natOfDigits a : Int) ≤ i) ∧
    (∀ b : List Char, b ≠ [] → (∀ c ∈ b, c.isDigit = true) →
        spanParse ('-' :: b) = some (Span.mk none (some ((natOfDigits b : Int) + 1))) ∧
          ∀ i : Int, spanMem (Span.mk none (some ((natOfDigits b : Int) + 1))) i = true ↔
            i < (natOfDigits b : Int) + 1) := by
  refine ⟨?_, ?_, ?_, ?_⟩
  · intro s hne hdig
    have hp : partitionDash s = (s, false, []) :=
      partitionDash_no_dash s (fun c hc => (digit_ne c (hdig c hc)).2.2.1)
    constructor
    · simp only [spanParse, hp]
      rw [if_neg hne, if_neg hne]
      simp [parseIntPy_digits s hne hdig]
    · intro i; simp [spanMem]
  · intro a b hna hda hnb hdb
    have hne : a ++ '-' :: b ≠ [] := by simp
    have hp : partitionDash (a ++ '-' :: b) = (a, true, b) :=
      partitionDash_mid a b (fun c hc => (digit_ne c (hda c hc)).2.2.1)
    constructor
    · simp only [spanParse, hp]
      rw [if_neg hne, if_neg hna, parseIntPy_digits a hna hda]
      simp [hnb, parseIntPy_digits b hnb hdb]
    · intro i; simp [spanMem]
  · intro a hna hda
    have hne : a ++ ['-'] ≠ [] := by simp
    have hp : partitionDash (a ++ ['-']) = (a, true, []) := by
      have := partitionDash_mid a [] (fun c hc => (digit_ne c (hda c hc)).2.2.1)
      simpa using this
    constructor
    · simp only [spanParse, hp]
      rw [if_neg hne, if_neg hna]
      simp [parseIntPy_digits a hna hda]
    · intro i; simp [spanMem]
  · intro b hnb hdb
    have hne : ('-' :: b) ≠ [] := by simp
    have hp : partitionDash ('-' :: b) = ([], true, b) := by
      simp [partitionDash]
    constructor
    · simp only [spanParse, hp]
      rw [if_neg hne]
      simp [parseIntPy_digits b hnb hdb, hnb]
    · intro i; simp [spanMem]

/-- C4, witness: the `2-4` example — parsing and the resulting
membership at 1, 2, 3, 4 and 5. -/
theorem c4_witness :
    spanParse ((("2").data) ++ '-' :: (("4").data)) = some (Span.mk (some 2) (some 5)) ∧
      spanMem (Span.mk (some 2) (some 5)) 2 = true ∧
      spanMem (Span.mk (some 2) (some 5)) 3 = true ∧
      spanMem (Span.mk (some 2) (some 5)) 4 = true ∧
      spanMem (Span.mk (some 2) (some 5)) 1 = false ∧
      spanMem (Span.mk (some 2) (some 5)) 5 = false := by
  have h := c4_span_parse.2.1 (("2").data) (("4").data) (by decide) (by decide)
    (by decide) (by decide)
  have hs : Span.mk (some ((natOfDigits (("2").data) : Nat) : Int))
      (some (((natOfDigits (("4").data) : Nat) : Int) + 1)) = Span.mk (some 2) (some 5) := by
    decide
  rw [hs] at h
  refine ⟨h.1, ?_, ?_, ?_, ?_, ?_⟩
  · exact (h.2 2).mpr (by constructor <;> decide)
  · exact (h.2 3).mpr (by constructor <;> decide)
  · exact (h.2 4).mpr (by constructor <;> decide)
  · have := h.2 1
    by_cases hb : spanMem (Span.mk (some 2) (some 5)) 1 = true
    · exact absurd ((this.mp hb).1) (by decide)
    · simpa using hb
  · have := h.2 5
    by_cases hb : spanMem (Span.mk (some 2) (some 5)) 5 = true
    · exact absurd ((this.mp hb).2) (by decide)
    · simpa using hb

/-- C4, counterexample to the claim as stated: `Span.parse("-3")` parses
to the span with no lower bound and end 4, and `-1` *is* a member, while
the claimed `0 <= i < b+1` form requires `-1` not to be (since
`¬ 0 ≤ -1`). -/
theorem c4_cx :
    spanParse (("-3").data) = some (Span.mk none (some 4)) ∧
      spanMem (Span.mk none (some 4)) (-1) = true ∧
      ¬ ((0 : Int) ≤ -1) := by
  decide

/-! ## Pipeline ordering lemmas -/

theorem applyCellPipeline_append (l1 : List WrapperI) (w : WrapperI) (l2 : List WrapperI)
    (c : Option Int × Option Int) (v : List Char) :
    applyCellPipeline (l1 ++ w :: l2) c v =
      (applyCellPipeline l1 c v).bind fun u =>
        (wrapCell w c u).bind fun u2 => applyCellPipeline l2 c u2 := by
  induction l1 generalizing v with
  | nil => simp [applyCellPipeline]
  | cons a t ih =>
    simp only [List.cons_append, applyCellPipeline]
    cases wrapCell a c v with
    | none => simp
    | some u => simp [ih]

/-- C5 (confirmed).  The pipeline built by `main` is sorted by priority
in descending order (once, before any row is processed; the embedding
threads the same list through every row).  In any such sorted pipeline
a strictly higher-priority wrapper sits strictly earlier, and the cell
fold factors so that an earlier wrapper's output feeds (through any
wrappers between them) into a later wrapper's input; `round` and
`percent` carry priority 200, `fg` 100, `bg` 10, so the numeric
modifiers always execute before the color modifiers on the same cell. -/
theorem c5_pipeline_order :
    (∀ (rm cm : List (List Char)) (ws : List WrapperI),
        buildWrappers rm cm = some ws → List.Sorted wGe ws) ∧
    (∀ l : List WrapperI, List.Sorted wGe (sortWrappers l)) ∧
    (∀ (l : List WrapperI) (i j : Fin l.length), List.Sorted wGe l →
        priority (l.get j).kind < priority (l.get i).kind → (i : Nat) < (j : Nat)) ∧
    (∀ (l1 : List WrapperI) (w : WrapperI) (l2 : List WrapperI)
        (c : Option Int × Option Int) (v : List Char),
        applyCellPipeline (l1 ++ w :: l2) c v =
          (applyCellPipeline l1 c v).bind fun u =>
            (wrapCell w c u).bind fun u2 => applyCellPipeline l2 c u2) ∧
    (∀ (d : Int) (dn : Bool), priority (Kind.roundK d dn) = 200) ∧
    (∀ d : Int, priority (Kind.percentK d) = 200) ∧
    (∀ o, priority (Kind.fgK o) = 100) ∧
    (∀ o, priority (Kind.bgK o) = 10) := by
  refine ⟨?_, ?_, ?_, applyCellPipeline_append, fun _ _ => rfl, fun _ => rfl,
    fun _ => rfl, fun _ => rfl⟩
  · intro rm cm ws h
    cases hr : parseAll Scope.row rm with
    | none => simp [buildWrappers, hr] at h
    | some rw =>
      cases hc : parseAll Scope.col cm with
      | none => simp [buildWrappers, hr, hc] at h
      | some cw =>
        have h2 : sortWrappers ((defaultWrappers ++ rw) ++ cw) = ws := by
          simpa [buildWrappers, hr, hc] using h
        rw [← h2]
        exact List.sorted_insertionSort wGe _
  · exact fun l => List.sorted_insertionSort wGe l
  · intro l i j hs hp
    by_contra hij
    rcases lt_or_eq_of_le (Nat.le_of_not_lt hij) with hlt | heq
    · have : wGe (l.get j) (l.get i) := hs.rel_get_of_lt (by exact hlt)
      exact absurd this (not_le.mpr hp)
    · have : i = j := Fin.ext heq.symm
      subst this
      exact lt_irrefl _ hp

/-- C5, witness: the pipeline built for the C1 configuration is sorted;
in the concrete sorted two-element pipeline `[round, bg]` the strictly
higher-priority `round` (200 > 10) sits at position 0 < 1. -/
theorem c5_witness :
    List.Sorted wGe
        (sortWrappers ((defaultWrappers ++ []) ++
          [WrapperI.mk Scope.col [Span.mk (some 0) (some 1)] (Kind.roundK 0 false)])) ∧
      (0 : Nat) < 1 := by
  constructor
  · exact c5_pipeline_order.1 [] [(("0:round:0").data)] _ (by decide)
  · have h := c5_pipeline_order.2.2.1
      [WrapperI.mk Scope.col [Span.mk none none] (Kind.roundK 0 false),
       WrapperI.mk Scope.col [Span.mk none none] (Kind.bgK (some (("red").data)))]
      ⟨0, by decide⟩ ⟨1, by decide⟩ (by decide) (by decide)
    exact h

/-! ## Lemmas for `round` on numeric input -/

theorem numScan_digits (s : List Char) (h : ∀ c ∈ s, c.isDigit = true) :
    ∀ b, numScan b s = true := by
  induction s with
  | nil => intro b; rfl
  | cons c t ih =>
    intro b
    simp only [numScan, h c (List.mem_cons_self _ _), if_true]
    exact ih (fun x hx => h x (List.mem_cons_of_mem _ hx)) false

theorem numCore_digits (s : List Char) (h1 : s ≠ []) (h2 : ∀ c ∈ s, c.isDigit = true) :
    numCore s = true := by
  cases s with
  | nil => exact absurd rfl h1
  | cons c t =>
    simp [numCore, h2 c (List.mem_cons_self _ _),
      numScan_digits t (fun x hx => h2 x (List.mem_cons_of_mem _ hx)) false]

theorem parenRewrite_head (v : List Char) (c : Char) (hh : v.head? = some c)
    (hc : c ≠ '(') : parenRewrite v = v := by
  unfold parenRewrite
  rw [hh]
  cases hl : v.getLast? with
  | none => rfl
  | some l =>
    show (if c = '(' ∧ l = ')' then '-' :: (List.drop 1 v).dropLast else v) = v
    rw [if_neg (fun hand => hc hand.1)]

theorem splitOnC_no_sep (sep : Char) (s : List Char) (h : ∀ c ∈ s, c ≠ sep) :
    splitOnC sep s = [s] := by
  induction s with
  | nil => rfl
  | cons c t ih =>
    simp only [splitOnC]
    rw [if_neg (h c (List.mem_cons_self _ _)),
      ih (fun x hx => h x (List.mem_cons_of_mem _ hx))]

theorem parseDec_digits_pos (ds : List Char) (h1 : ds ≠ [])
    (h2 : ∀ c ∈ ds, c.isDigit = true) :
    parseDec ds = some (false, natOfDigits ds, 0) := by
  have hws : stripWS ds = ds := stripWS_id ds (fun c hc => digit_not_ws c (h2 c hc))
  have hsp : splitOnC '.' ds = [ds] :=
    splitOnC_no_sep '.' ds (fun c hc => (digit_ne c (h2 c hc)).2.2.2.2.2.1)
  cases ds with
  | nil => exact absurd rfl h1
  | cons c t =>
    have hd := h2 c (List.mem_cons_self _ _)
    simp only [parseDec, hws]
    rw [if_neg (digit_ne c hd).2.2.1, if_neg (digit_ne c hd).2.2.2.1, hsp]
    simp [List.all_eq_true.mpr h2]

theorem parseDec_digits_neg (ds : List Char) (h1 : ds ≠ [])
    (h2 : ∀ c ∈ ds, c.isDigit = true) :
    parseDec ('-' :: ds) = some (true, natOfDigits ds, 0) := by
  have hws : stripWS ('-' :: ds) = '-' :: ds := by
    apply stripWS_id
    intro c hc
    rcases List.mem_cons.mp hc with h | h
    · subst h; decide
    · exact digit_not_ws c (h2 c h)
  have hsp : splitOnC '.' ds = [ds] :=
    splitOnC_no_sep '.' ds (fun c hc => (digit_ne c (h2 c hc)).2.2.2.2.2.1)
  simp only [parseDec, hws]
  simp [hsp, h1, List.all_eq_true.mpr h2]

theorem filter_ne_comma (s : List Char) (h : ∀ c ∈ s, c ≠ ',') :
    s.filter (fun c => decide (c ≠ ',')) = s := by
  induction s with
  | nil => rfl
  | cons c t ih =>
    rw [List.filter_cons, if_pos (by simp [h c (List.mem_cons_self _ _)])]
    rw [ih (fun x hx => h x (List.mem_cons_of_mem _ hx))]

/-- C3 (amended).  For a cell value that is an optional minus followed by
digits and a `round` modifier with negative `decimals = d`, `apply`
divides by `10^-d` and rounds (half to even, whatever the rounding-mode
argument) to an *integer* — the quotient is never scaled back up, so the
result is `value / 10^-d` rounded, not the value rounded to a
power-of-ten magnitude.  In particular `round(-2)` on `"1534"` yields
`"15"`, not `"1500"`.  (The digit bound keeps the input inside the
default 28-digit decimal context, where the Python division is exact.) -/
theorem c3_round_negative (d : Int) (down neg : Bool) (ds : List Char)
    (hd : d < 0) (h1 : ds ≠ []) (h2 : ∀ c ∈ ds, c.isDigit = true)
    (_hlen : ds.length ≤ 25) :
    roundApply d down ((if neg then ['-'] else []) ++ ds) =
      some ((if neg then ['-'] else []) ++
        (Nat.repr (halfEvenDiv (natOfDigits ds) (10 ^ (-d).toNat))).data) := by
  cases neg with
  | false =>
    show roundApply d down ds = some ([] ++ _)
    obtain ⟨c, t, rfl⟩ : ∃ c t, ds = c :: t := by
      cases ds with
      | nil => exact absurd rfl h1
      | cons c t => exact ⟨c, t, rfl⟩
    have hdc := h2 c (List.mem_cons_self _ _)
    have hpr : parenRewrite (c :: t) = c :: t :=
      parenRewrite_head _ c rfl (digit_ne c hdc).1
    have hm : pyMatchNum (c :: t) = true := by
      have hcore : numCore (c :: t) = true := numCore_digits _ h1 h2
      have : numOpt (c :: t) = true := by
        simp only [numOpt]
        rw [if_neg (digit_ne c hdc).2.2.1]
        exact hcore
      simp [pyMatchNum, this]
    have hfil : (c :: t).filter (fun x => decide (x ≠ ',')) = c :: t :=
      filter_ne_comma _ (fun x hx => (digit_ne x (h2 x hx)).2.2.2.2.1)
    simp only [roundApply, hpr, hm, if_true, hfil, parseDec_digits_pos _ h1 h2]
    rw [if_pos hd]
    simp [decStr]
  | true =>
    show roundApply d down ('-' :: ds) = some (['-'] ++ _)
    have hpr : parenRewrite ('-' :: ds) = '-' :: ds :=
      parenRewrite_head _ '-' rfl (by decide)
    have hm : pyMatchNum ('-' :: ds) = true := by
      have : numOpt ('-' :: ds) = true := by
        simp only [numOpt, if_pos rfl]
        exact numCore_digits _ h1 h2
      simp [pyMatchNum, this]
    have hfil : ('-' :: ds).filter (fun x => decide (x ≠ ',')) = '-' :: ds := by
      apply filter_ne_comma
      intro x hx
      rcases List.mem_cons.mp hx with h | h
      · subst h; decide
      · exact (digit_ne x (h2 x h)).2.2.2.2.1
    simp only [roundApply, hpr, hm, if_true, hfil, parseDec_digits_neg _ h1 h2]
    rw [if_pos hd]
    simp [decStr]

/-- C3, witness: `round(-2)` applied to `1534` yields `15` by the
amended theorem. -/
theorem c3_witness :
    roundApply (-2) false (("1534").data) = some (("15").data) := by
  have h := c3_round_negative (-2) false false (("1534").data)
    (by decide) (by decide) (by decide) (by decide)
  have e : ((if false then ['-'] else []) ++ (("1534").data) : List Char) = ("1534").data := by
    decide
  rw [e] at h
  rw [h]
  decide

/-- C3, counterexample to the claim as stated: `round(-2)` on `"1534"`
yields `"15"`, not the claimed `"1500"`. -/
theorem c3_cx :
    roundApply (-2) false (("1534").data) ≠ some (("1500").data) := by
  decide

end RenderTable
